import Mathlib

/-!
Verification of the srtmerger merge engine (`main.py`) against its
natural-language specification.

The Python source is shallowly embedded below.  Text is modelled as
`List Char` (named `Str`), Python `bytes` as `List Nat`, Python `dict`
(insertion ordered) as an association list, and a raised Python exception as
`Except.error ()`.  The float dictionary key produced by
`datetime.strptime(ts, '%H:%M:%S,%f').timestamp()` is modelled as the number
of microseconds since midnight: for the fixed date 1900-01-01 the float
timestamp is a strictly monotone, injective function of that quantity, so
equality and ordering of keys are preserved exactly.
-/

/-- Text of the embedded program: a Python `str` as a list of characters. -/
abbrev Str := List Char

/-- Converts a Lean string literal into the `Str` model. -/
def str (s : String) : Str := s.data

/-- Python whitespace characters stripped by `str.strip` (ASCII range, which
covers every string handled by this program). -/
def pyWS (c : Char) : Bool := c = ' ' ∨ c = '\t' ∨ c = '\n' ∨ c = '\r' ∨ c = '\x0b' ∨ c = '\x0c'

/-- Python `str.lstrip()` with no argument. -/
def lstripL (s : Str) : Str := s.dropWhile pyWS

/-- Python `str.rstrip()` with no argument. -/
def rstripL (s : Str) : Str := (s.reverse.dropWhile pyWS).reverse

/-- Python `str.strip()`; also equals `s.rstrip().lstrip()` as used at
`main.py` line 137. -/
def stripL (s : Str) : Str := lstripL (rstripL s)

/-- Decides whether `pat` is a leading segment of `s`. -/
def leadsWith : Str → Str → Bool
  | [], _ => true
  | _ :: _, [] => false
  | a :: ps, b :: ss => a = b && leadsWith ps ss

/-- Decides whether `pat` occurs contiguously inside `s`. -/
def containsSub (pat : Str) : Str → Bool
  | [] => leadsWith pat []
  | s@(_ :: rest) => leadsWith pat s || containsSub pat rest

/-- Python `s.split(sep, maxsplit)` for a one-character separator `c0`:
scans left to right, splitting at the first `maxs` occurrences. -/
def pySplitCh (c0 : Char) : Nat → Str → List Str
  | _, [] => [[]]
  | maxs, c :: cs =>
    if c = c0 ∧ 0 < maxs then
      [] :: pySplitCh c0 (maxs - 1) cs
    else
      match pySplitCh c0 maxs cs with
      | [] => [[c]]
      | h :: t => (c :: h) :: t

/-- Python `time.split('-->')[0]` (`main.py` line 143): the text before the
first occurrence of `-->`, or the whole string when absent. -/
def splitArrowHead : Str → Str
  | [] => []
  | a :: rest => if a = '-' ∧ leadsWith (str "->") rest then [] else a :: splitArrowHead rest

/-- Python `dialog.replace('\r\n', '', 1)` under the guard
`dialog.startswith('\r\n')` (`main.py` lines 133-134 and 140-141): with the
guard, removing the first occurrence is dropping the two leading characters. -/
def dropIfCRLF (d : Str) : Str :=
  match d with
  | a :: b :: rest => if a = '\r' ∧ b = '\n' then rest else a :: b :: rest
  | d => d

/-- Python `dialog = dialog[1:]` under `dialog.startswith('\n')`
(`main.py` lines 135-136). -/
def dropIfLF : Str → Str
  | [] => []
  | a :: rest => if a = '\n' then rest else a :: rest

/-- Python `re.split('\r\n\r|\n\n', data)` (`main.py` line 219): leftmost
match wins and the alternative `'\r\n\r'` is tried before `'\n\n'`. -/
def splitBlocks : Str → List Str
  | [] => [[]]
  | '\r' :: '\n' :: '\r' :: rest => [] :: splitBlocks rest
  | '\n' :: '\n' :: rest => [] :: splitBlocks rest
  | a :: rest =>
    match splitBlocks rest with
    | [] => [[a]]
    | h :: t => (a :: h) :: t

/-- Python `text.replace('\n\n', '')` (`main.py` line 238): removes all
non-overlapping occurrences, scanning left to right. -/
def replaceNlNl : Str → Str
  | [] => []
  | a :: rest =>
    if a = '\n' then
      match rest with
      | b :: rest2 => if b = '\n' then replaceNlNl rest2 else a :: replaceNlNl (b :: rest2)
      | [] => [a]
    else a :: replaceNlNl rest

/-- ASCII decimal digit test, mirroring `\d` in the `strptime` regexes. -/
def isDigit (c : Char) : Bool := 48 ≤ c.toNat ∧ c.toNat ≤ 57

/-- Numeric value of a decimal digit character. -/
def digitVal (c : Char) : Nat := c.toNat - 48

/-- Value of a string of decimal digits. -/
def natOfDigits (ds : Str) : Nat := ds.foldl (fun acc c => 10 * acc + digitVal c) 0

/-- One numeric field of `strptime`: either two leading digits whose value is
at most `hi`, or a single leading digit, mirroring the ordered-alternation
regexes `2[0-3]|[0-1]\d|\d` (hi = 23), `[0-5]\d|\d` (hi = 59) and
`6[0-1]|[0-5]\d|\d` (hi = 61). -/
def parseField (hi : Nat) (s : Str) : Option (Nat × Str) :=
  match s with
  | c1 :: c2 :: rest =>
    if isDigit c1 ∧ isDigit c2 ∧ 10 * digitVal c1 + digitVal c2 ≤ hi then
      some (10 * digitVal c1 + digitVal c2, rest)
    else if isDigit c1 then some (digitVal c1, c2 :: rest)
    else none
  | [c1] => if isDigit c1 then some (digitVal c1, []) else none
  | [] => none

/-- Python `datetime.datetime.strptime(ts, '%H:%M:%S,%f')` (`main.py` lines
149-150), returning the time of day in microseconds.  `%f` accepts one to six
digits, padded on the right to microseconds; the whole string must be
consumed; the regex admits seconds 60 and 61 but the `datetime` constructor
then rejects them, so both paths yield a `ValueError`, modelled as `none`. -/
def parseTime (s : Str) : Option Nat :=
  match parseField 23 s with
  | none => none
  | some (h, r1) =>
    match r1 with
    | ':' :: r2 =>
      match parseField 59 r2 with
      | none => none
      | some (mi, r3) =>
        match r3 with
        | ':' :: r4 =>
          match parseField 61 r4 with
          | none => none
          | some (se, r5) =>
            match r5 with
            | ',' :: r6 =>
              let ds := (r6.takeWhile isDigit).take 6
              if ds = [] then none
              else if r6.drop ds.length ≠ [] then none
              else if 59 < se then none
              else some (((h * 60 + mi) * 60 + se) * 1000000 + natOfDigits ds * 10 ^ (6 - ds.length))
            | _ => none
        | _ => none
    | _ => none

/-- Decimal digits of `n`, as Python `str(count)` (`main.py` line 241). -/
def natStr (n : Nat) : Str := Nat.toDigits 10 n

/-- Uppercase hexadecimal digit. -/
def hexDig (n : Nat) : Char := if n < 10 then Char.ofNat (48 + n) else Char.ofNat (55 + n)

/-- Python `f'{r:02x}'.upper()` for a component value at most 255. -/
def hex2 (n : Nat) : Str := [hexDig (n / 16), hexDig (n % 16)]

/-- Uppercasing, Python `str.upper()` on the ASCII strings handled here. -/
def upperStr (s : Str) : Str := s.map Char.toUpper

/-- The `COLORS` table of `main.py` lines 10-21. -/
def COLORS : List (Str × Str) :=
  [(str "RED", str "#FF003B"), (str "BLUE", str "#00ADFF"), (str "GREEN", str "#B4FF00"),
   (str "WHITE", str "#FFFFFF"), (str "YELLOW", str "#FFEB00"), (str "CYAN", str "#00FFFF"),
   (str "MAGENTA", str "#FF00FF"), (str "ORANGE", str "#FFA500"), (str "PURPLE", str "#800080"),
   (str "PINK", str "#FFC0CB")]

/-- Uppercase hexadecimal digit test, the regex class `[0-9A-F]`. -/
def isUHex (c : Char) : Bool := isDigit c || (65 ≤ c.toNat ∧ c.toNat ≤ 70)

/-- Regex `^#[0-9A-F]{6}$` of `main.py` line 44. -/
def isHexColor (c : Str) : Bool :=
  match c with
  | '#' :: rest => rest.length == 6 && rest.all isUHex
  | _ => false

/-- Regex `^[0-9A-F]{6}$` of `main.py` line 48. -/
def isBareHex (c : Str) : Bool := c.length == 6 && c.all isUHex

/-- Regex `^\((\d+),\s*(\d+),\s*(\d+)\)$` of `main.py` line 52, returning the
three integer groups. -/
def parseRGB (c : Str) : Option (Nat × Nat × Nat) :=
  match c with
  | '(' :: r1 =>
    let dsR := r1.takeWhile isDigit
    if dsR = [] then none else
    match r1.drop dsR.length with
    | ',' :: r2 =>
      let r2b := r2.dropWhile pyWS
      let dsG := r2b.takeWhile isDigit
      if dsG = [] then none else
      match r2b.drop dsG.length with
      | ',' :: r3 =>
        let r3b := r3.dropWhile pyWS
        let dsB := r3b.takeWhile isDigit
        if dsB = [] then none else
        match r3b.drop dsB.length with
        | [')'] => some (natOfDigits dsR, natOfDigits dsG, natOfDigits dsB)
        | _ => none
      | _ => none
    | _ => none
  | _ => none

/-- `normalize_color` of `main.py` lines 25-59.  A falsy argument (absent or
empty) yields `none`; every other token yields a canonical value, falling back
to the white hex value. -/
def normalize_color (color : Option Str) : Option Str :=
  match color with
  | none => none
  | some c0 =>
    if c0 = [] then none
    else
      let c := upperStr (stripL c0)
      match COLORS.find? (fun p => p.1 == c) with
      | some p => some p.2
      | none =>
        if isHexColor c then some c
        else if isBareHex c then some ('#' :: c)
        else
          match parseRGB c with
          | some (r, g, b) =>
            if r ≤ 255 ∧ g ≤ 255 ∧ b ≤ 255 then some ('#' :: (hex2 r ++ hex2 g ++ hex2 b))
            else some (str "#FFFFFF")
          | none => some (str "#FFFFFF")

/-- The size wrap of `main.py` lines 162-163: applied when `size` is truthy
(a nonzero integer). -/
def sizeApp (size : Option Nat) (x : Str) : Str :=
  match size with
  | some n =>
    if n ≠ 0 then
      str "<font face=\"Gandhi Sans\" size=\"" ++ (natStr n ++ (str "\">" ++ (x ++ str "</font>")))
    else x
  | none => x

/-- The color wrap of `main.py` lines 164-165: applied when `color` is truthy
(a non-empty string), using the supplied token verbatim. -/
def colorApp (color : Option Str) (x : Str) : Str :=
  match color with
  | some c =>
    if c ≠ [] then str "<font color=\"" ++ (c ++ (str "\">" ++ (x ++ str "</font>")))
    else x
  | none => x

/-- The fixed top-position override token `'{\an8}'` of `main.py` line 169. -/
def an8 : Str := str "\x7b\\an8\x7d"

/-- The styling pass applied to each parsed cue body, `main.py` lines
161-169: strip trailing whitespace, then size wrap, then color wrap, then
position prepend. -/
def styleText (color : Option Str) (size : Option Nat) (top : Bool) (text : Str) : Str :=
  let t := colorApp color (sizeApp size (rstripL text))
  if top then an8 ++ t else t

/-- One input source, the `subtitle` dict built by `Merger.add` (`main.py`
lines 210-221): its styled cues are indexed by start-time key. -/
structure Subtitle where
  address : Str
  codec : Str
  color : Option Str
  size : Option Nat
  data : Str
  raw_dialogs : List Str
  dialogs : List (Nat × Str)
deriving DecidableEq

/-- Lookup in the insertion-ordered dict `subtitle['dialogs']`. -/
def lookupD (d : List (Nat × Str)) (k : Nat) : Option Str :=
  match d.find? (fun p => p.1 == k) with
  | some p => some p.2
  | none => none

/-- Assignment `subtitle['dialogs'][k] = v`: an existing key keeps its
position, a new key is appended. -/
def insertD (d : List (Nat × Str)) (k : Nat) (v : Str) : List (Nat × Str) :=
  match d.find? (fun p => p.1 == k) with
  | some _ => d.map (fun p => if p.1 == k then (k, v) else p)
  | none => d ++ [(k, v)]

/-- The merge session state held by the `Merger` object (`main.py` lines
68-75).  `self.lines` is rebuilt inside `merge` and is returned in
`MergeOutput` rather than stored; `font_sizes` is never read. -/
structure Merger where
  timestamps : List Nat
  subtitles : List Subtitle
  output_path : Str
  output_name : Str
  output_encoding : Str
deriving DecidableEq

/-- The fresh state built by `Merger.__init__` with its default arguments. -/
def initMerger : Merger :=
  { timestamps := [], subtitles := [],
    output_path := str ".", output_name := str "subtitle_name.srt",
    output_encoding := str "utf-8" }

/-- The default of the `color` parameter of `Merger.add`,
`COLORS['WHITE']` (`main.py` line 196). -/
def defaultColor : Str := str "#FFFFFF"

/-- Storing one styled cue, `main.py` lines 171-181: the stored entry is the
timecode line, a newline, the styled text and a newline; when the key is
already present the new entry instead keeps `prev.split('\n', 2)[2].strip()`
(everything after the second line of the previous entry) between the timecode
line and the new text.  A previous entry with fewer than two newlines would
make `[2]` raise, which reaches the broken `self.logger` handler: error. -/
def storeDialog (st : List (Nat × Str) × List Nat) (key : Nat) (time : Str) (text : Str) :
    Except Unit (List (Nat × Str) × List Nat) :=
  match lookupD st.1 key with
  | none =>
    .ok (insertD st.1 key (time ++ ('\n' :: (text ++ ['\n']))), st.2 ++ [key])
  | some prev =>
    match (pySplitCh '\n' 2 prev).get? 2 with
    | none => .error ()
    | some p2 =>
      .ok (insertD st.1 key (time ++ ('\n' :: (stripL p2 ++ ('\n' :: (text ++ ['\n']))))),
           st.2 ++ [key])

/-- One iteration of the loop of `Merger._split_dialogs` (`main.py` lines
132-185).  State is `(subtitle['dialogs'], self.timestamps)`.  A block that is
blank, has no second line, or assembles to an empty body is skipped.  A second
line whose start part does not parse raises `ValueError`; the handler at line
184 then evaluates `self.logger`, which no `Merger` ever defines, so an
`AttributeError` escapes: modelled as `.error ()`. -/
def processDialog (color : Option Str) (size : Option Nat) (top : Bool)
    (st : List (Nat × Str) × List Nat) (dialog0 : Str) :
    Except Unit (List (Nat × Str) × List Nat) :=
  let d1 := dropIfCRLF dialog0
  let d2 := dropIfLF d1
  if d2 = [] ∨ d2 = ['\n'] ∨ lstripL (rstripL d2) = [] then .ok st
  else
    let d3 := dropIfCRLF d2
    match (pySplitCh '\n' 2 d3).get? 1 with
    | none => .ok st
    | some time =>
      match parseTime (stripL (splitArrowHead time)) with
      | none => .error ()
      | some key =>
        match (pySplitCh '\n' 1 d3).get? 1 with
        | none => .error ()
        | some textAndTime =>
          let texts := (pySplitCh '\n' textAndTime.length textAndTime).drop 1
          let text := texts.foldl (fun acc t => acc ++ (t ++ ['\n'])) []
          if text = [] ∨ text = ['\n'] then .ok st
          else storeDialog st key time (styleText color size top text)

/-- `Merger._split_dialogs` (`main.py` lines 131-185) over the list of raw
blocks; an escaping exception aborts the whole call. -/
def splitDialogs (color : Option Str) (size : Option Nat) (top : Bool) :
    (List (Nat × Str) × List Nat) → List Str → Except Unit (List (Nat × Str) × List Nat)
  | st, [] => .ok st
  | st, d :: ds =>
    match processDialog color size top st d with
    | .error e => .error e
    | .ok st' => splitDialogs color size top st' ds

/-- `Merger.add` (`main.py` lines 196-223) after the file at
`subtitle_address` has been read and decoded to `dataContents`.  The Python
defaults are `codec="utf-8"`, `color=COLORS['WHITE']`, `size=None`,
`top=False`. -/
def add (m : Merger) (subtitle_address : Str) (dataContents : Str) (codec : Str)
    (color : Option Str) (size : Option Nat) (top : Bool) : Except Unit Merger :=
  let dialogs := splitBlocks dataContents
  match splitDialogs color size top ([], m.timestamps) dialogs with
  | .error e => .error e
  | .ok (dmap, ts) =>
    .ok { m with
          timestamps := ts,
          subtitles := m.subtitles ++
            [{ address := subtitle_address, codec := codec, color := color, size := size,
               data := dataContents, raw_dialogs := dialogs, dialogs := dmap }] }

/-- `Merger.add` called without `color`, `size` and `top` arguments: the
Python defaults `COLORS['WHITE']`, `None`, `False` apply. -/
def addDefault (m : Merger) (subtitle_address : Str) (dataContents : Str) (codec : Str) :
    Except Unit Merger :=
  add m subtitle_address dataContents codec (some defaultColor) none false

/-- UTF-8 encoding of one character, the codec behaviour of Python
`bytes(text, encoding='utf-8')`. -/
def utf8Char (c : Char) : List Nat :=
  let n := c.toNat
  if n < 128 then [n]
  else if n < 2048 then [192 + n / 64, 128 + n % 64]
  else if n < 65536 then [224 + n / 4096, 128 + (n / 64) % 64, 128 + n % 64]
  else [240 + n / 262144, 128 + (n / 4096) % 64, 128 + (n / 64) % 64, 128 + n % 64]

/-- UTF-8 encoding of a string, used to instantiate the abstract output
codec at the session default `output_encoding='utf-8'`. -/
def utf8 (s : Str) : List Nat := s.flatMap utf8Char

/-- The encoding-name normalisation of `Merger._insert_bom` (`main.py` lines
78-81): drop `-`, `_` and spaces, then uppercase. -/
def normEncName (encoding : Str) : Str :=
  upperStr (encoding.filter (fun c => ¬ (c = '-' ∨ c = '_' ∨ c = ' ')))

/-- `Merger._insert_bom` (`main.py` lines 77-96).  `codecs.BOM` and
`codecs.BOM_UTF32` are the little-endian marks on the x86 platforms the
program runs on.  The `'UTF64BE'` branch reads `codecs.BOM_UTF64_BE`, an
attribute that does not exist, so it raises `AttributeError`: `.error ()`. -/
def insert_bom (content : List Nat) (encoding : Str) : Except Unit (List Nat) :=
  if normEncName encoding = str "UTF64LE" ∨ normEncName encoding = str "UTF16" ∨
      normEncName encoding = str "UTF16LE" then .ok ([255, 254] ++ content)
  else if normEncName encoding = str "UTF8" then .ok ([239, 187, 191] ++ content)
  else if normEncName encoding = str "UTF32LE" then .ok ([255, 254, 0, 0] ++ content)
  else if normEncName encoding = str "UTF64BE" then .error ()
  else if normEncName encoding = str "UTF16BE" then .ok ([0, 0, 254, 255] ++ content)
  else if normEncName encoding = str "UTF32BE" then .ok ([0, 0, 254, 255] ++ content)
  else if normEncName encoding = str "UTF32" then .ok ([255, 254, 0, 0] ++ content)
  else .ok content

/-- The byte-order mark `insert_bom` prepends for an encoding name, written
as a total function for the characterisation lemmas; `[]` for families
without a mark (and, vacuously, for the erroring `UTF64BE` branch). -/
def bomBytes (encoding : Str) : List Nat :=
  if normEncName encoding = str "UTF64LE" ∨ normEncName encoding = str "UTF16" ∨
      normEncName encoding = str "UTF16LE" then [255, 254]
  else if normEncName encoding = str "UTF8" then [239, 187, 191]
  else if normEncName encoding = str "UTF32LE" then [255, 254, 0, 0]
  else if normEncName encoding = str "UTF64BE" then []
  else if normEncName encoding = str "UTF16BE" then [0, 0, 254, 255]
  else if normEncName encoding = str "UTF32BE" then [0, 0, 254, 255]
  else if normEncName encoding = str "UTF32" then [255, 254, 0, 0]
  else []

/-- `Merger.get_output_path` (`main.py` lines 225-228). -/
def get_output_path (m : Merger) : Str :=
  if List.isSuffixOf ['/'] m.output_path then m.output_path ++ m.output_name
  else m.output_path ++ ('/' :: m.output_name)

/-- `self.timestamps = list(set(self.timestamps)); self.timestamps.sort()`
(`main.py` lines 232-233): the distinct keys in ascending order. -/
def dedupSort (xs : List Nat) : List Nat := (xs.dedup).insertionSort (· ≤ ·)

/-- Python `lst[:-n]`. -/
def pyDropLast (n : Nat) (xs : List Nat) : List Nat := xs.take (xs.length - n)

/-- The final-line trim of `Merger.merge` (`main.py` lines 253-256), applied
to the last encoded block: first the `b'\x00\n\x00'` artifact rewrite, then
the trailing `b'\n'` drop, each re-testing the current value. -/
def trimFinal (l : List Nat) : List Nat :=
  let l1 := if List.isSuffixOf [0, 10, 0] l then pyDropLast 3 l ++ [0] else l
  if List.isSuffixOf [10] l1 then pyDropLast 1 l1 else l1

/-- The inner loop of `Merger.merge` (`main.py` lines 236-252) for one
start-time `t`: visit the sources in add order; each source holding an entry
at `t` contributes its own encoded block under its own running `count`.  The
entry value is re-assigned with a trailing newline when it lacks one (line
247-248) after the block bytes were already computed from the old value. -/
def mergeSubsAt (enc : Str → List Nat) (encName : Str) (t : Nat) :
    List Subtitle → Nat → Except Unit (List Subtitle × List (List Nat) × Nat)
  | [], count => .ok ([], [], count)
  | sub :: rest, count =>
    match lookupD sub.dialogs t with
    | none =>
      match mergeSubsAt enc encName t rest count with
      | .error e => .error e
      | .ok (r, ls, c) => .ok (sub :: r, ls, c)
    | some v =>
      let line := enc (replaceNlNl v)
      let bc := if count = 1 then insert_bom (enc (natStr count)) encName
                else .ok (enc ['\n'] ++ enc (natStr count))
      match bc with
      | .error e => .error e
      | .ok byteOfCount =>
        let sub' := if List.isSuffixOf ['\n'] v then sub
                    else { sub with dialogs := insertD sub.dialogs t (v ++ ['\n']) }
        let dialog := byteOfCount ++ enc ['\n'] ++ line
        match mergeSubsAt enc encName t rest (count + 1) with
        | .error e => .error e
        | .ok (r, ls, c) => .ok (sub' :: r, dialog :: ls, c)

/-- The outer loop of `Merger.merge` over the sorted distinct start-times. -/
def mergeLoop (enc : Str → List Nat) (encName : Str) :
    List Nat → List Subtitle → Nat → List (List Nat) →
    Except Unit (List Subtitle × List (List Nat) × Nat)
  | [], subs, count, lines => .ok (subs, lines, count)
  | t :: ts, subs, count, lines =>
    match mergeSubsAt enc encName t subs count with
    | .error e => .error e
    | .ok (subs', ls, c) => mergeLoop enc encName ts subs' c (lines ++ ls)

/-- What a successful `Merger.merge` produces: the path it opens for writing,
the byte lines written, and the Python return value of the call.  `merge` has
no return statement, so `ret` is always `none` (Python `None`). -/
structure MergeOutput where
  path : Str
  lines : List (List Nat)
  ret : Option Str
deriving DecidableEq

/-- `Merger.merge` (`main.py` lines 230-259), parameterised by the output
codec `enc` (Python's `bytes(text, encoding=self.output_encoding)`).  With an
empty `self.lines` the expression `self.lines[-1]` at line 253 raises
`IndexError` before the output file is opened: `.error ()`, and nothing is
written. -/
def merge (enc : Str → List Nat) (m : Merger) : Except Unit MergeOutput :=
  let ts := dedupSort m.timestamps
  match mergeLoop enc m.output_encoding ts m.subtitles 1 [] with
  | .error e => .error e
  | .ok (_, lines, _) =>
    match lines.getLast? with
    | none => .error ()
    | some last => .ok { path := get_output_path m, lines := lines.dropLast ++ [trimFinal last], ret := none }

/-- The bytes `merge` emits for the block numbered `n` holding stored entry
`v`: the running count (with the byte-order mark when `n = 1`, with a leading
blank-line newline otherwise), a newline, and the entry with `'\n\n'`
occurrences removed. -/
def serialLine (enc : Str → List Nat) (encName : Str) (n : Nat) (v : Str) : List Nat :=
  (if n = 1 then bomBytes encName ++ enc (natStr n) else enc ['\n'] ++ enc (natStr n)) ++
    enc ['\n'] ++ enc (replaceNlNl v)

/-- Serialisation of consecutive blocks starting at count `n`. -/
def serialLines (enc : Str → List Nat) (encName : Str) : Nat → List Str → List (List Nat)
  | _, [] => []
  | n, v :: vs => serialLine enc encName n v :: serialLines enc encName (n + 1) vs

/-- The stored entries contributed at start-time `t`, one per source holding
the key, in the order the sources were added. -/
def contribsAt (subs : List Subtitle) (t : Nat) : List Str :=
  subs.filterMap (fun sub => lookupD sub.dialogs t)

/-- All contributions of a session in emission order: per start-time in the
given order, per source in add order. -/
def contribsList (subs : List Subtitle) : List Nat → List Str
  | [] => []
  | t :: ts => contribsAt subs t ++ contribsList subs ts

/-- The start-time attached to each emitted block, in emission order: each
distinct start-time repeated once per contributing source. -/
def blockTimes (m : Merger) : List Nat :=
  (dedupSort m.timestamps).flatMap
    (fun t => List.replicate (contribsAt m.subtitles t).length t)

/-- The markup prefix that wrapping with the default white color produces. -/
def wrapToken : Str := str "<font color=\"" ++ (defaultColor ++ str "\">")

/-- A minimal source holding exactly one stored entry, used by the concrete
sessions below. -/
def oneCueSub (k : Nat) (v : Str) : Subtitle :=
  { address := str "a.srt", codec := str "utf-8", color := some defaultColor, size := none,
    data := [], raw_dialogs := [], dialogs := [(k, v)] }

/-- Two sources, each with one cue stored at the same start-time
`00:00:05,000`, bodies `Hi` and `Salut` (the session of spec Scenario B). -/
def sessionB : Merger :=
  { timestamps := [5000000, 5000000],
    subtitles := [oneCueSub 5000000 (str "0:0:5,0 --> 0:0:6,0\nHi\n"),
                  oneCueSub 5000000 (str "0:0:5,0 --> 0:0:6,0\nSalut\n")],
    output_path := str ".", output_name := str "out.srt", output_encoding := str "utf-8" }

/-- A second copy of the Scenario-B shape with different bodies, for the
ordering/numbering claim. -/
def sessionB2 : Merger :=
  { timestamps := [7000000, 7000000],
    subtitles := [oneCueSub 7000000 (str "0:0:7,0 --> 0:0:8,0\nOne\n"),
                  oneCueSub 7000000 (str "0:0:7,0 --> 0:0:8,0\nTwo\n")],
    output_path := str ".", output_name := str "out.srt", output_encoding := str "utf-8" }

/-- A single-source session with two cues at distinct start-times. -/
def sessionA : Merger :=
  { timestamps := [1000000, 2000000],
    subtitles := [{ address := str "a.srt", codec := str "utf-8", color := some defaultColor,
                    size := none, data := [], raw_dialogs := [],
                    dialogs := [(1000000, str "0:0:1,0 --> 0:0:2,0\nHello\n"),
                                (2000000, str "0:0:2,0 --> 0:0:3,0\nWorld\n")] }],
    output_path := str ".", output_name := str "out.srt", output_encoding := str "utf-8" }

/-- The session state after `addDefault initMerger "a.srt" data "utf-8"` for
the one-cue file `data = "1\n0:0:5,0 --> 0:0:6,0\nHi"`. -/
def sessionAdded : Merger :=
  { timestamps := [5000000],
    subtitles := [{ address := str "a.srt", codec := str "utf-8",
                    color := some defaultColor, size := none,
                    data := str "1\n0:0:5,0 --> 0:0:6,0\nHi",
                    raw_dialogs := [str "1\n0:0:5,0 --> 0:0:6,0\nHi"],
                    dialogs := [(5000000,
                      str "0:0:5,0 --> 0:0:6,0\n<font color=\"#FFFFFF\">Hi</font>\n")] }],
    output_path := str ".", output_name := str "subtitle_name.srt",
    output_encoding := str "utf-8" }

/-! Lemmas.  First the basic facts about the string and dictionary helpers,
then the characterisation of `merge`, then the claim theorems. -/

theorem insert_bom_eq (c : List Nat) (e : Str) (h : normEncName e ≠ str "UTF64BE") :
    insert_bom c e = .ok (bomBytes e ++ c) := by
  unfold insert_bom bomBytes
  split_ifs <;> rfl

theorem lookupD_nil (k : Nat) : lookupD [] k = none := rfl

theorem lookupD_mem {d : List (Nat × Str)} {k : Nat} {v : Str}
    (h : lookupD d k = some v) : ∃ p ∈ d, p.2 = v := by
  unfold lookupD at h
  cases hf : d.find? (fun p => p.1 == k) with
  | none => rw [hf] at h; exact absurd h (by simp)
  | some p =>
    rw [hf] at h
    exact ⟨p, List.mem_of_find?_eq_some hf, by injection h⟩

theorem mem_insertD {d : List (Nat × Str)} {k : Nat} {v : Str} {p : Nat × Str}
    (h : p ∈ insertD d k v) : p ∈ d ∨ p = (k, v) := by
  unfold insertD at h
  cases hf : d.find? (fun q => q.1 == k) with
  | some q =>
    rw [hf] at h
    rcases List.mem_map.mp h with ⟨q', hq', heq⟩
    by_cases hk : (q'.1 == k) = true
    · rw [if_pos hk] at heq
      exact Or.inr heq.symm
    · rw [if_neg hk] at heq
      exact Or.inl (heq ▸ hq')
  | none =>
    rw [hf] at h
    rcases List.mem_append.mp h with h1 | h1
    · exact Or.inl h1
    · exact Or.inr (by simpa using h1)

theorem pySplitCh_zero (c0 : Char) (s : Str) : pySplitCh c0 0 s = [s] := by
  induction s with
  | nil => rfl
  | cons c cs ih =>
    simp only [pySplitCh, Nat.lt_irrefl, and_false, if_false, ih]

theorem pySplitCh_no_sep (c0 : Char) (m : Nat) (s : Str) (h : c0 ∉ s) :
    pySplitCh c0 m s = [s] := by
  induction s with
  | nil => rfl
  | cons c cs ih =>
    have hc : ¬ (c = c0 ∧ 0 < m) := by
      rintro ⟨rfl, -⟩
      exact h (List.mem_cons_self _ _)
    simp only [pySplitCh, hc, if_false, ih (fun hm => h (List.mem_cons_of_mem _ hm))]

theorem pySplitCh_break (c0 : Char) (m : Nat) (a r : Str) (h : c0 ∉ a) :
    pySplitCh c0 (m + 1) (a ++ c0 :: r) = a :: pySplitCh c0 m r := by
  induction a with
  | nil =>
    simp [pySplitCh]
  | cons x xs ih =>
    have hx : ¬ (x = c0 ∧ 0 < m + 1) := by
      rintro ⟨rfl, -⟩
      exact h (List.mem_cons_self _ _)
    rw [List.cons_append]
    simp only [pySplitCh, hx, if_false]
    rw [ih (fun hm => h (List.mem_cons_of_mem _ hm))]

theorem dropWhile_cons_ite (p : Char → Bool) (a : Char) (l : Str) :
    List.dropWhile p (a :: l) = if p a then List.dropWhile p l else a :: l := by
  by_cases h : p a
  · simp [List.dropWhile_cons, h]
  · simp [List.dropWhile_cons, h]

theorem rstripL_append_nonws (xs : Str) (a : Char) (h : ¬ pyWS a) :
    rstripL (xs ++ [a]) = xs ++ [a] := by
  unfold rstripL
  rw [List.reverse_append]
  simp only [List.reverse_cons, List.reverse_nil, List.nil_append, List.singleton_append]
  rw [dropWhile_cons_ite, if_neg h]
  simp

theorem rstripL_append_nl (xs : Str) : rstripL (xs ++ ['\n']) = rstripL xs := by
  unfold rstripL
  rw [List.reverse_append]
  simp only [List.reverse_cons, List.reverse_nil, List.nil_append, List.singleton_append]
  rw [dropWhile_cons_ite, if_pos (by decide)]

theorem mem_dropWhile_append_last (p : Char → Bool) (l : Str) (a : Char) (h : ¬ p a = true) :
    a ∈ List.dropWhile p (l ++ [a]) := by
  induction l with
  | nil => rw [List.nil_append, dropWhile_cons_ite, if_neg h]; exact List.mem_cons_self _ _
  | cons x xs ih =>
    rw [List.cons_append, dropWhile_cons_ite]
    by_cases hx : p x
    · rw [if_pos hx]; exact ih
    · rw [if_neg hx]
      exact List.mem_cons_of_mem _ (by simp)

theorem stripL_ne_nil (a : Char) (xs : Str) (h : ¬ pyWS a) : stripL (a :: xs) ≠ [] := by
  unfold stripL lstripL
  intro hc
  rw [List.dropWhile_eq_nil_iff] at hc
  have hmem : a ∈ rstripL (a :: xs) := by
    unfold rstripL
    rw [List.mem_reverse]
    have hrev : (a :: xs).reverse = xs.reverse ++ [a] := by simp
    rw [hrev]
    exact mem_dropWhile_append_last _ _ _ (by simpa using h)
  exact h (by simpa using hc a hmem)

theorem serialLines_length (enc : Str → List Nat) (encName : Str) (n : Nat) (vs : List Str) :
    (serialLines enc encName n vs).length = vs.length := by
  induction vs generalizing n with
  | nil => rfl
  | cons v vs ih => simp [serialLines, ih]

theorem serialLines_append (enc : Str → List Nat) (encName : Str) (xs ys : List Str) (n : Nat) :
    serialLines enc encName n (xs ++ ys)
      = serialLines enc encName n xs ++ serialLines enc encName (n + xs.length) ys := by
  induction xs generalizing n with
  | nil => simp [serialLines]
  | cons x xs ih =>
    simp only [List.cons_append, serialLines, List.append_eq, List.length_cons]
    rw [ih (n + 1)]
    have : n + 1 + xs.length = n + (xs.length + 1) := by omega
    rw [this]

theorem serialLines_get? (enc : Str → List Nat) (encName : Str) (vs : List Str) (n i : Nat) :
    (serialLines enc encName n vs).get? i = (vs.get? i).map (serialLine enc encName (n + i)) := by
  induction vs generalizing n i with
  | nil => simp [serialLines]
  | cons v vs ih =>
    cases i with
    | zero => simp [serialLines]
    | succ j =>
      simp only [serialLines, List.get?_cons_succ, ih (n + 1) j]
      have : n + 1 + j = n + (j + 1) := by omega
      rw [this]

theorem contribsAt_cons_none {subs : List Subtitle} {sub : Subtitle} {t : Nat}
    (h : lookupD sub.dialogs t = none) :
    contribsAt (sub :: subs) t = contribsAt subs t := by
  simp [contribsAt, List.filterMap_cons, h]

theorem contribsAt_cons_some {subs : List Subtitle} {sub : Subtitle} {t : Nat} {v : Str}
    (h : lookupD sub.dialogs t = some v) :
    contribsAt (sub :: subs) t = v :: contribsAt subs t := by
  simp [contribsAt, List.filterMap_cons, h]

theorem contribsList_length_eq (subs : List Subtitle) (ts : List Nat) :
    (ts.flatMap fun t => List.replicate (contribsAt subs t).length t).length
      = (contribsList subs ts).length := by
  induction ts with
  | nil => rfl
  | cons t ts ih => simp [contribsList, ih]

theorem pairwise_le_replicate (n : Nat) (t : Nat) :
    List.Pairwise (fun a b => a ≤ b) (List.replicate n t) := by
  induction n with
  | zero => simp
  | succ k ih =>
    rw [List.replicate_succ]
    exact List.Pairwise.cons (fun b hb => le_of_eq (List.eq_of_mem_replicate hb).symm) ih

theorem sorted_flatMap_replicate (ts : List Nat) (hs : List.Sorted (· ≤ ·) ts)
    (f : Nat → Nat) :
    List.Sorted (· ≤ ·) (ts.flatMap fun t => List.replicate (f t) t) := by
  induction ts with
  | nil => simp
  | cons t ts ih =>
    rw [List.flatMap_cons]
    rw [List.sorted_cons] at hs
    show List.Pairwise (fun x1 x2 => x1 ≤ x2) _
    rw [List.pairwise_append]
    refine ⟨pairwise_le_replicate _ _, ih hs.2, ?_⟩
    intro x hx y hy
    rcases List.mem_flatMap.mp hy with ⟨u, hu, hyu⟩
    rw [List.eq_of_mem_replicate hx, List.eq_of_mem_replicate hyu]
    exact hs.1 u hu

theorem blockTimes_sorted (m : Merger) : List.Sorted (· ≤ ·) (blockTimes m) := by
  unfold blockTimes
  apply sorted_flatMap_replicate
  exact List.sorted_insertionSort _ _

theorem mergeSubsAt_eq (enc : Str → List Nat) (encName : Str) (t : Nat)
    (hb : normEncName encName ≠ str "UTF64BE") :
    ∀ (subs : List Subtitle) (count : Nat),
      (∀ sub ∈ subs, ∀ kv ∈ sub.dialogs, List.isSuffixOf ['\n'] kv.2 = true) →
      mergeSubsAt enc encName t subs count
        = .ok (subs, serialLines enc encName count (contribsAt subs t),
               count + (contribsAt subs t).length) := by
  intro subs
  induction subs with
  | nil => intro count h; simp [mergeSubsAt, contribsAt, serialLines]
  | cons sub rest ih =>
    intro count h
    have hrest : ∀ s ∈ rest, ∀ kv ∈ s.dialogs, List.isSuffixOf ['\n'] kv.2 = true :=
      fun s hs => h s (List.mem_cons_of_mem _ hs)
    cases hl : lookupD sub.dialogs t with
    | none =>
      rw [mergeSubsAt, hl, ih count hrest, contribsAt_cons_none hl]
    | some v =>
      have hnl : List.isSuffixOf ['\n'] v = true := by
        rcases lookupD_mem hl with ⟨p, hp, hpv⟩
        exact hpv ▸ h sub (List.mem_cons_self _ _) p hp
      by_cases hc : count = 1
      · subst hc
        rw [mergeSubsAt, hl]
        dsimp only
        rw [if_pos rfl, insert_bom_eq _ _ hb, ih 2 hrest]
        dsimp only
        rw [if_pos hnl, contribsAt_cons_some hl]
        simp only [serialLines, serialLine, if_pos rfl, List.length_cons,
          Except.ok.injEq, Prod.mk.injEq, true_and]
        refine ⟨rfl, ?_⟩
        omega
      · rw [mergeSubsAt, hl]
        dsimp only
        rw [if_neg hc, ih (count + 1) hrest]
        dsimp only
        rw [if_pos hnl, contribsAt_cons_some hl]
        simp only [serialLines, serialLine, if_neg hc, List.length_cons,
          Except.ok.injEq, Prod.mk.injEq, true_and]
        omega

theorem mergeLoop_eq (enc : Str → List Nat) (encName : Str)
    (hb : normEncName encName ≠ str "UTF64BE") :
    ∀ (ts : List Nat) (subs : List Subtitle) (count : Nat) (lines0 : List (List Nat)),
      (∀ sub ∈ subs, ∀ kv ∈ sub.dialogs, List.isSuffixOf ['\n'] kv.2 = true) →
      mergeLoop enc encName ts subs count lines0
        = .ok (subs, lines0 ++ serialLines enc encName count (contribsList subs ts),
               count + (contribsList subs ts).length) := by
  intro ts
  induction ts with
  | nil => intro subs count lines0 h; simp [mergeLoop, contribsList, serialLines]
  | cons t ts ih =>
    intro subs count lines0 h
    rw [mergeLoop, mergeSubsAt_eq enc encName t hb subs count h]
    dsimp only
    rw [ih subs (count + (contribsAt subs t).length) (lines0 ++ serialLines enc encName count (contribsAt subs t)) h]
    simp only [contribsList, Except.ok.injEq, Prod.mk.injEq, true_and]
    refine ⟨?_, ?_⟩
    · rw [serialLines_append, List.append_assoc]
    · simp [List.length_append]
      omega

theorem serialLines_ne_nil (enc : Str → List Nat) (encName : Str) (n : Nat)
    {vs : List Str} (h : vs ≠ []) : serialLines enc encName n vs ≠ [] := by
  cases vs with
  | nil => exact absurd rfl h
  | cons v vs => simp [serialLines]

theorem merge_eq_main (enc : Str → List Nat) (m : Merger)
    (h1 : ∀ sub ∈ m.subtitles, ∀ kv ∈ sub.dialogs, List.isSuffixOf ['\n'] kv.2 = true)
    (hb : normEncName m.output_encoding ≠ str "UTF64BE")
    (h3 : contribsList m.subtitles (dedupSort m.timestamps) ≠ []) :
    ∃ last,
      (serialLines enc m.output_encoding 1
          (contribsList m.subtitles (dedupSort m.timestamps))).getLast? = some last ∧
      merge enc m
        = .ok { path := get_output_path m,
                lines := (serialLines enc m.output_encoding 1
                           (contribsList m.subtitles (dedupSort m.timestamps))).dropLast
                         ++ [trimFinal last],
                ret := none } := by
  have hsl := serialLines_ne_nil enc m.output_encoding 1 h3
  rcases List.exists_mem_of_ne_nil _ hsl with ⟨x, -⟩
  cases hL : (serialLines enc m.output_encoding 1
      (contribsList m.subtitles (dedupSort m.timestamps))).getLast? with
  | none =>
    exact absurd (List.getLast?_eq_none_iff.mp hL) hsl
  | some last =>
    refine ⟨last, rfl, ?_⟩
    unfold merge
    dsimp only
    rw [mergeLoop_eq enc m.output_encoding hb (dedupSort m.timestamps) m.subtitles 1 [] h1]
    dsimp only
    rw [List.nil_append] at *
    rw [hL]

theorem mergeSubsAt_empty (enc : Str → List Nat) (encName : Str) (t : Nat) :
    ∀ (subs : List Subtitle) (count : Nat), (∀ sub ∈ subs, sub.dialogs = []) →
      mergeSubsAt enc encName t subs count = .ok (subs, [], count) := by
  intro subs
  induction subs with
  | nil => intro count h; rfl
  | cons sub rest ih =>
    intro count h
    have hd : sub.dialogs = [] := h sub (List.mem_cons_self _ _)
    have hl : lookupD sub.dialogs t = none := by rw [hd]; rfl
    rw [mergeSubsAt, hl, ih count (fun s hs => h s (List.mem_cons_of_mem _ hs))]

theorem mergeLoop_empty (enc : Str → List Nat) (encName : Str) :
    ∀ (ts : List Nat) (subs : List Subtitle) (count : Nat) (lines0 : List (List Nat)),
      (∀ sub ∈ subs, sub.dialogs = []) →
      mergeLoop enc encName ts subs count lines0 = .ok (subs, lines0, count) := by
  intro ts
  induction ts with
  | nil => intro subs count lines0 h; rfl
  | cons t ts ih =>
    intro subs count lines0 h
    rw [mergeLoop, mergeSubsAt_empty enc encName t subs count h]
    dsimp only
    rw [List.append_nil]
    exact ih subs count lines0 h

theorem styleText_decomp (c : Str) (hc : c ≠ []) (sz : Option Nat) (top : Bool) (t : Str) :
    styleText (some c) sz top t
      = (if top then an8 else []) ++ (str "<font color=\"" ++ (c ++ (str "\">"
          ++ (sizeApp sz (rstripL t) ++ str "</font>")))) := by
  unfold styleText colorApp
  dsimp only
  rw [if_pos hc]
  cases top <;> simp

theorem styleText_rstrip (c : Str) (hc : c ≠ []) (sz : Option Nat) (top : Bool) (t : Str) :
    rstripL (styleText (some c) sz top t) = styleText (some c) sz top t := by
  have hdec : ∃ A, styleText (some c) sz top t = A ++ ['>'] := by
    refine ⟨(if top then an8 else []) ++ (str "<font color=\"" ++ (c ++ (str "\">"
      ++ (sizeApp sz (rstripL t) ++ str "</font")))), ?_⟩
    rw [styleText_decomp c hc sz top t]
    have hpost : str "</font>" = str "</font" ++ ['>'] := by decide
    rw [hpost]
    simp [List.append_assoc]
  rcases hdec with ⟨A, hA⟩
  rw [hA]
  exact rstripL_append_nonws A '>' (by decide)

theorem sizeApp_length_ge (sz : Option Nat) (x : Str) : x.length ≤ (sizeApp sz x).length := by
  cases sz with
  | none => exact le_refl _
  | some n =>
    unfold sizeApp
    dsimp only
    by_cases h : n ≠ 0
    · rw [if_pos h]; simp [List.length_append]; omega
    · rw [if_neg h]

theorem styleText_twice (c : Str) (hc : c ≠ []) (sz : Option Nat) (top : Bool) (t : Str) :
    styleText (some c) sz top (styleText (some c) sz top t)
      = (if top then an8 else []) ++ colorApp (some c) (sizeApp sz (styleText (some c) sz top t)) := by
  set S := styleText (some c) sz top t with hS
  have hr : rstripL S = S := by rw [hS]; exact styleText_rstrip c hc sz top t
  unfold styleText
  dsimp only
  rw [hr]
  cases top <;> simp

theorem styleText_twice_ne (c : Str) (hc : c ≠ []) (sz : Option Nat) (top : Bool) (t : Str) :
    styleText (some c) sz top (styleText (some c) sz top t) ≠ styleText (some c) sz top t := by
  intro heq
  have h2 := styleText_twice c hc sz top t
  rw [heq] at h2
  have hlen := congrArg List.length h2
  have hge := sizeApp_length_ge sz (styleText (some c) sz top t)
  unfold colorApp at hlen
  dsimp only at hlen
  rw [if_pos hc] at hlen
  simp only [List.length_append, show (str "<font color=\"").length = 13 from by decide,
    show (str "\">").length = 2 from by decide, show (str "</font>").length = 7 from by decide,
    show an8.length = 6 from by decide] at hlen
  cases top <;> simp at hlen <;> omega

theorem leadsWith_append (pat xs : Str) : leadsWith pat (pat ++ xs) = true := by
  induction pat with
  | nil => rfl
  | cons a ps ih => simp [leadsWith, ih]

theorem leadsWith_exists {pat s : Str} (h : leadsWith pat s = true) : ∃ b, s = pat ++ b := by
  induction pat generalizing s with
  | nil => exact ⟨s, rfl⟩
  | cons a ps ih =>
    cases s with
    | nil => exact absurd h (by simp [leadsWith])
    | cons b ss =>
      rw [leadsWith, Bool.and_eq_true] at h
      rcases ih h.2 with ⟨bb, hbb⟩
      refine ⟨bb, ?_⟩
      have hab : a = b := by simpa using h.1
      rw [hbb, hab, List.cons_append]

theorem containsSub_of_leads {pat s : Str} (h : leadsWith pat s = true) :
    containsSub pat s = true := by
  cases s with
  | nil => exact h
  | cons a rest => simp [containsSub, h]

theorem containsSub_cons (pat : Str) (a : Char) {rest : Str}
    (h : containsSub pat rest = true) : containsSub pat (a :: rest) = true := by
  simp [containsSub, h]

theorem containsSub_exists {pat s : Str} (h : containsSub pat s = true) :
    ∃ x b, s = x ++ (pat ++ b) := by
  induction s with
  | nil =>
    rcases leadsWith_exists (h : leadsWith pat [] = true) with ⟨b, hb⟩
    exact ⟨[], b, hb⟩
  | cons a rest ih =>
    rw [containsSub, Bool.or_eq_true] at h
    rcases h with h | h
    · rcases leadsWith_exists h with ⟨b, hb⟩
      exact ⟨[], b, by simpa using hb⟩
    · rcases ih h with ⟨x, b, hb⟩
      exact ⟨a :: x, b, by simp [hb]⟩

theorem containsSub_of_decomp (pat : Str) {s : Str} (x b : Str) (h : s = x ++ (pat ++ b)) :
    containsSub pat s = true := by
  subst h
  induction x with
  | nil => exact containsSub_of_leads (leadsWith_append pat b)
  | cons a xs ih => exact containsSub_cons pat a ih

theorem containsSub_wrap_around (pat x t y : Str) (h : containsSub pat t = true) :
    containsSub pat (x ++ (t ++ y)) = true := by
  rcases containsSub_exists h with ⟨a, b, rfl⟩
  exact containsSub_of_decomp pat (x ++ a) (b ++ y) (by simp [List.append_assoc])

theorem contains_styled (sz : Option Nat) (top : Bool) (x : Str) :
    containsSub wrapToken (styleText (some defaultColor) sz top x) = true := by
  rw [styleText_decomp defaultColor (by decide) sz top x]
  refine containsSub_of_decomp wrapToken (if top then an8 else [])
    (sizeApp sz (rstripL x) ++ str "</font>") ?_
  unfold wrapToken
  simp [List.append_assoc]

theorem storeDialog_inv {st : List (Nat × Str) × List Nat} {key : Nat} {time text : Str}
    {st' : List (Nat × Str) × List Nat}
    (h : storeDialog st key time text = .ok st')
    (htext : containsSub wrapToken text = true)
    (hinv : ∀ kv ∈ st.1, containsSub wrapToken kv.2 = true) :
    ∀ kv ∈ st'.1, containsSub wrapToken kv.2 = true := by
  unfold storeDialog at h
  cases h1 : lookupD st.1 key with
  | none =>
    rw [h1] at h
    dsimp only at h
    rw [Except.ok.injEq] at h
    subst h
    intro kv hkv
    rcases mem_insertD hkv with hold | hnew
    · exact hinv kv hold
    · rw [hnew]
      have := containsSub_wrap_around wrapToken (time ++ ['\n']) text ['\n'] htext
      simpa [List.append_assoc] using this
  | some prev =>
    rw [h1] at h
    dsimp only at h
    cases h2 : (pySplitCh '\n' 2 prev).get? 2 with
    | none => rw [h2] at h; exact absurd h (by simp)
    | some p2 =>
      rw [h2] at h
      rw [Except.ok.injEq] at h
      subst h
      intro kv hkv
      rcases mem_insertD hkv with hold | hnew
      · exact hinv kv hold
      · rw [hnew]
        have := containsSub_wrap_around wrapToken (time ++ ('\n' :: (stripL p2 ++ ['\n']))) text ['\n'] htext
        simpa [List.append_assoc] using this

theorem processDialog_inv {sz : Option Nat} {top : Bool}
    {st st' : List (Nat × Str) × List Nat} {d : Str}
    (h : processDialog (some defaultColor) sz top st d = .ok st')
    (hinv : ∀ kv ∈ st.1, containsSub wrapToken kv.2 = true) :
    ∀ kv ∈ st'.1, containsSub wrapToken kv.2 = true := by
  unfold processDialog at h
  dsimp only at h
  repeat' split at h
  all_goals
    first
    | exact Except.noConfusion h
    | (rw [Except.ok.injEq] at h; subst h; exact hinv)
    | exact storeDialog_inv h (contains_styled _ _ _) hinv

theorem splitDialogs_inv {sz : Option Nat} {top : Bool} :
    ∀ (ds : List Str) (st st' : List (Nat × Str) × List Nat),
      splitDialogs (some defaultColor) sz top st ds = .ok st' →
      (∀ kv ∈ st.1, containsSub wrapToken kv.2 = true) →
      ∀ kv ∈ st'.1, containsSub wrapToken kv.2 = true := by
  intro ds
  induction ds with
  | nil =>
    intro st st' h hinv
    rw [splitDialogs, Except.ok.injEq] at h
    subst h
    exact hinv
  | cons d ds ih =>
    intro st st' h hinv
    rw [splitDialogs] at h
    cases hp : processDialog (some defaultColor) sz top st d with
    | error e => rw [hp] at h; exact absurd h (by simp)
    | ok st1 =>
      rw [hp] at h
      exact ih st1 st' h (processDialog_inv hp hinv)

theorem append_singleton_ne_nl {body : Str} (h4 : body ≠ []) :
    body ++ ['\n'] ≠ ['\n'] := by
  cases body with
  | nil => exact absurd rfl h4
  | cons b bs =>
    intro heq
    rw [List.cons_append] at heq
    injection heq with hb hbs
    exact absurd hbs (by simp)

theorem styleText_clean_body {body : Str} (c : Str) (h5 : rstripL body = body) :
    styleText (some c) none false (body ++ ['\n']) = colorApp (some c) body := by
  unfold styleText
  dsimp only
  rw [rstripL_append_nl, h5]
  rfl

theorem processDialog_single (tl body c : Str) (k : Nat) (ts0 : List Nat)
    (h1 : parseTime (stripL (splitArrowHead tl)) = some k)
    (h2 : ('\n' : Char) ∉ tl)
    (h3 : ('\n' : Char) ∉ body)
    (h4 : body ≠ []) :
    processDialog (some c) none false ([], ts0) ('1' :: '\n' :: (tl ++ '\n' :: body))
      = .ok ([(k, tl ++ ('\n' :: (styleText (some c) none false (body ++ ['\n']) ++ ['\n'])))],
             ts0 ++ [k]) := by
  have e1 : dropIfCRLF ('1' :: '\n' :: (tl ++ '\n' :: body))
      = '1' :: '\n' :: (tl ++ '\n' :: body) := by
    simp [dropIfCRLF]
  have e2 : dropIfLF ('1' :: '\n' :: (tl ++ '\n' :: body))
      = '1' :: '\n' :: (tl ++ '\n' :: body) := by
    simp [dropIfLF]
  have esp2 : pySplitCh '\n' 2 ('1' :: '\n' :: (tl ++ '\n' :: body)) = [['1'], tl, body] := by
    have hd : ('1' : Char) :: '\n' :: (tl ++ '\n' :: body)
        = ['1'] ++ '\n' :: (tl ++ '\n' :: body) := rfl
    rw [hd, pySplitCh_break '\n' 1 ['1'] _ (by decide),
        pySplitCh_break '\n' 0 tl body h2, pySplitCh_zero]
  have esp1 : pySplitCh '\n' 1 ('1' :: '\n' :: (tl ++ '\n' :: body))
      = [['1'], tl ++ '\n' :: body] := by
    have hd : ('1' : Char) :: '\n' :: (tl ++ '\n' :: body)
        = ['1'] ++ '\n' :: (tl ++ '\n' :: body) := rfl
    rw [hd, pySplitCh_break '\n' 0 ['1'] _ (by decide), pySplitCh_zero]
  have elen : (tl ++ '\n' :: body).length = (tl.length + body.length) + 1 := by
    simp [List.length_append]
    omega
  have esptt : pySplitCh '\n' (tl ++ '\n' :: body).length (tl ++ '\n' :: body)
      = [tl, body] := by
    rw [elen, pySplitCh_break '\n' (tl.length + body.length) tl body h2,
        pySplitCh_no_sep '\n' _ body h3]
  have hskip : ¬ ('1' :: '\n' :: (tl ++ '\n' :: body) = [] ∨
      '1' :: '\n' :: (tl ++ '\n' :: body) = ['\n'] ∨
      lstripL (rstripL ('1' :: '\n' :: (tl ++ '\n' :: body))) = []) := by
    push_neg
    refine ⟨by simp, by simp, ?_⟩
    exact stripL_ne_nil '1' _ (by decide)
  unfold processDialog
  dsimp only
  rw [e1, e2, if_neg hskip, e1, esp2]
  simp only [List.get?_cons_succ, List.get?_cons_zero]
  rw [h1]
  try dsimp only
  rw [esp1]
  simp only [List.get?_cons_succ, List.get?_cons_zero]
  try dsimp only
  rw [esptt]
  dsimp only [List.drop, List.foldl]
  rw [List.nil_append]
  rw [if_neg ?hne]
  case hne =>
    push_neg
    exact ⟨by simp, append_singleton_ne_nl h4⟩
  unfold storeDialog
  rw [show lookupD [] k = none from rfl]
  dsimp only
  rfl

theorem merge_ok_shape (enc : Str → List Nat) (m : Merger) (out : MergeOutput)
    (h : merge enc m = .ok out) : out.path = get_output_path m ∧ out.ret = none := by
  unfold merge at h
  dsimp only at h
  cases hml : mergeLoop enc m.output_encoding (dedupSort m.timestamps) m.subtitles 1 [] with
  | error e => rw [hml] at h; exact Except.noConfusion h
  | ok trip =>
    rw [hml] at h
    obtain ⟨s, lines, c⟩ := trip
    dsimp only at h
    cases hgl : lines.getLast? with
    | none => rw [hgl] at h; exact Except.noConfusion h
    | some last =>
      rw [hgl] at h
      rw [Except.ok.injEq] at h
      rw [← h]
      exact ⟨rfl, rfl⟩

/-- C1, counterexample.  In the Scenario-B session (two sources, one cue each
at the same start-time) `merge` emits two numbered blocks, not the single
merged block the claim requires: the session has exactly one distinct
start-time yet the output holds two blocks. -/
theorem c1_counterexample :
    (dedupSort sessionB.timestamps).length = 1 ∧
    (merge utf8 sessionB).toOption.map (fun o => o.lines.length) = some 2 ∧
    (2 : Nat) ≠ 1 :=
  ⟨by decide, by rfl, by decide⟩

/-- C1, amended.  For start-times in ascending order, `merge` emits one block
per contributing source, visiting sources in add order; each block carries
only that source's stored entry (its own timecode line and styled text) under
its own running sequence number, and contributions at a shared start-time are
never combined into a single block.  The output lines are exactly the
serialisation of `contribsList` (with the final-line trim applied). -/
theorem c1_amended_theorem (enc : Str → List Nat) (m : Merger)
    (h1 : ∀ sub ∈ m.subtitles, ∀ kv ∈ sub.dialogs, List.isSuffixOf ['\n'] kv.2 = true)
    (hb : normEncName m.output_encoding ≠ str "UTF64BE")
    (h3 : contribsList m.subtitles (dedupSort m.timestamps) ≠ []) :
    ∃ last,
      (serialLines enc m.output_encoding 1
          (contribsList m.subtitles (dedupSort m.timestamps))).getLast? = some last ∧
      merge enc m
        = .ok { path := get_output_path m,
                lines := (serialLines enc m.output_encoding 1
                           (contribsList m.subtitles (dedupSort m.timestamps))).dropLast
                         ++ [trimFinal last],
                ret := none } :=
  merge_eq_main enc m h1 hb h3

/-- C1, witness for the amended theorem at the Scenario-B session. -/
theorem c1_amended_theorem_witness :
    ∃ last,
      (serialLines utf8 sessionB.output_encoding 1
          (contribsList sessionB.subtitles (dedupSort sessionB.timestamps))).getLast? = some last ∧
      merge utf8 sessionB
        = .ok { path := get_output_path sessionB,
                lines := (serialLines utf8 sessionB.output_encoding 1
                           (contribsList sessionB.subtitles (dedupSort sessionB.timestamps))).dropLast
                         ++ [trimFinal last],
                ret := none } :=
  c1_amended_theorem utf8 sessionB (by decide) (by decide) (by decide)

/-- C2, counterexample.  Two sources sharing the single start-time of
`sessionB2` yield two blocks, so the block count exceeds the number of
distinct start-times (1), the sequence numbers run 1..2 rather than 1..1, and
the per-block start-times `[t, t]` are not strictly ascending. -/
theorem c2_counterexample :
    (merge utf8 sessionB2).toOption.map (fun o => o.lines.length) = some 2 ∧
    (dedupSort sessionB2.timestamps).length = 1 ∧
    blockTimes sessionB2 = [7000000, 7000000] ∧
    ¬ List.Sorted (· < ·) (blockTimes sessionB2) ∧
    (2 : Nat) ≠ 1 :=
  ⟨by rfl, by decide, by decide, by decide, by decide⟩

/-- C2, amended.  The blocks written by `merge` appear in non-decreasing
start-time order (ties arise exactly when several sources contribute at one
time), and their sequence numbers are `1..N` contiguously where `N` is the
total number of (start-time, source) contributions — `N` equals the number of
distinct start-times only when no start-time is shared.  Position `i` of the
serialisation carries number `1 + i`. -/
theorem c2_amended_theorem (enc : Str → List Nat) (m : Merger)
    (h1 : ∀ sub ∈ m.subtitles, ∀ kv ∈ sub.dialogs, List.isSuffixOf ['\n'] kv.2 = true)
    (hb : normEncName m.output_encoding ≠ str "UTF64BE")
    (h3 : contribsList m.subtitles (dedupSort m.timestamps) ≠ []) :
    (merge enc m).toOption.map (fun o => o.lines.length) = some (blockTimes m).length ∧
    List.Sorted (· ≤ ·) (blockTimes m) ∧
    ∀ i : Nat,
      (serialLines enc m.output_encoding 1
          (contribsList m.subtitles (dedupSort m.timestamps))).get? i
        = ((contribsList m.subtitles (dedupSort m.timestamps)).get? i).map
            (serialLine enc m.output_encoding (1 + i)) := by
  obtain ⟨last, hL, hM⟩ := merge_eq_main enc m h1 hb h3
  refine ⟨?_, blockTimes_sorted m, fun i => serialLines_get? enc m.output_encoding _ 1 i⟩
  rw [hM]
  have hlen := serialLines_length enc m.output_encoding 1
    (contribsList m.subtitles (dedupSort m.timestamps))
  have hpos : 0 < (contribsList m.subtitles (dedupSort m.timestamps)).length :=
    List.length_pos.mpr h3
  have hbt : (blockTimes m).length
      = (contribsList m.subtitles (dedupSort m.timestamps)).length := by
    unfold blockTimes
    exact contribsList_length_eq _ _
  show some (((serialLines enc m.output_encoding 1
      (contribsList m.subtitles (dedupSort m.timestamps))).dropLast
        ++ [trimFinal last]).length)
    = some ((blockTimes m).length)
  rw [Option.some.injEq, List.length_append, List.length_dropLast, hlen, hbt]
  simp only [List.length_singleton]
  omega

/-- C2, witness for the amended theorem at the `sessionB2` session. -/
theorem c2_amended_theorem_witness :
    (merge utf8 sessionB2).toOption.map (fun o => o.lines.length) = some (blockTimes sessionB2).length ∧
    List.Sorted (· ≤ ·) (blockTimes sessionB2) ∧
    ∀ i : Nat,
      (serialLines utf8 sessionB2.output_encoding 1
          (contribsList sessionB2.subtitles (dedupSort sessionB2.timestamps))).get? i
        = ((contribsList sessionB2.subtitles (dedupSort sessionB2.timestamps)).get? i).map
            (serialLine utf8 sessionB2.output_encoding (1 + i)) :=
  c2_amended_theorem utf8 sessionB2 (by decide) (by decide) (by decide)

/-- C3, code bug.  A block whose second line is not a timecode line (here
`GARBAGE`; the same happens when the timecode line is present but its start
part does not parse) makes `strptime` raise `ValueError`; the handler at
`main.py` line 184 then evaluates `self.logger`, which `Merger` never
defines, so `add` aborts with `AttributeError` on a perfectly readable and
decodable file instead of skipping the block as intended by the `continue`. -/
theorem c3_code_bug_theorem :
    add initMerger (str "a.srt") (str "1\nGARBAGE\nText") (str "utf-8")
        (some defaultColor) none false = .error () := by rfl

/-- C4, counterexample.  A source added with the named color token `RED` has
its cue stored wrapped as `<font color="RED">`, the raw token verbatim, while
`normalize_color` would map `RED` to `#FF003B`: the stored attribute is not
the normalised hex value. -/
theorem c4_counterexample :
    splitDialogs (some (str "RED")) none false ([], [])
        [str "1\n0:0:5,0 --> 0:0:6,0\nHi"]
      = .ok ([(5000000, str "0:0:5,0 --> 0:0:6,0\n<font color=\"RED\">Hi</font>\n")],
             [5000000]) ∧
    normalize_color (some (str "RED")) = some (str "#FF003B") ∧
    str "RED" ≠ str "#FF003B" :=
  ⟨by rfl, by rfl, by decide⟩

/-- C4, amended.  For every well-formed single-cue block and every non-empty
color token `c`, the stored cue text is wrapped in a font tag whose color
attribute is the supplied token verbatim: `normalize_color` is never applied
on the `add` path (`_split_dialogs` uses the raw `color` argument). -/
theorem c4_amended_theorem (tl body c : Str) (k : Nat) (ts0 : List Nat)
    (h1 : parseTime (stripL (splitArrowHead tl)) = some k)
    (h2 : ('\n' : Char) ∉ tl)
    (h3 : ('\n' : Char) ∉ body)
    (h4 : body ≠ [])
    (h5 : rstripL body = body)
    (hc : c ≠ []) :
    splitDialogs (some c) none false ([], ts0) ['1' :: '\n' :: (tl ++ '\n' :: body)]
      = .ok ([(k, tl ++ ('\n' :: ((str "<font color=\"" ++ (c ++ (str "\">"
               ++ (body ++ str "</font>")))) ++ ['\n'])))],
             ts0 ++ [k]) := by
  rw [splitDialogs, processDialog_single tl body c k ts0 h1 h2 h3 h4]
  dsimp only
  rw [splitDialogs]
  rw [styleText_clean_body c h5]
  unfold colorApp
  dsimp only
  rw [if_pos hc]

/-- C4, witness for the amended theorem: token `RED`, body `Hi`. -/
theorem c4_amended_theorem_witness :
    splitDialogs (some (str "RED")) none false ([], [])
        ['1' :: '\n' :: (str "0:0:5,0 --> 0:0:6,0" ++ '\n' :: str "Hi")]
      = .ok ([(5000000, str "0:0:5,0 --> 0:0:6,0" ++ ('\n' :: ((str "<font color=\""
               ++ (str "RED" ++ (str "\">" ++ (str "Hi" ++ str "</font>")))) ++ ['\n'])))],
             [] ++ [5000000]) :=
  c4_amended_theorem (str "0:0:5,0 --> 0:0:6,0") (str "Hi") (str "RED") 5000000 []
    (by decide) (by decide) (by decide) (by decide) (by decide) (by decide)

/-- C5, counterexample.  The styling pass applied to cue bodies
(`main.py` lines 161-169) does not strip pre-existing font markup: running it
twice on `Hi` with the default white color double-wraps instead of
reproducing the once-styled text. -/
theorem c5_counterexample :
    styleText (some defaultColor) none false
        (styleText (some defaultColor) none false (str "Hi"))
      ≠ styleText (some defaultColor) none false (str "Hi") := by decide

/-- C5, amended.  For every fixed style with a truthy color, applying the
styling pass twice wraps the once-styled text in a further font tag (and
prepends a further position token when `top` is set): pre-existing markup is
not stripped, so the pass is never idempotent on any input.  The helper
`_set_subtitle_style`, which does strip `<font>` tags first, is never invoked
on the add/merge path. -/
theorem c5_amended_theorem (c : Str) (hc : c ≠ []) (sz : Option Nat) (top : Bool) (t : Str) :
    styleText (some c) sz top (styleText (some c) sz top t)
        = (if top then an8 else [])
          ++ colorApp (some c) (sizeApp sz (styleText (some c) sz top t)) ∧
    styleText (some c) sz top (styleText (some c) sz top t)
        ≠ styleText (some c) sz top t :=
  ⟨styleText_twice c hc sz top t, styleText_twice_ne c hc sz top t⟩

/-- C5, witness for the amended theorem at the default white color. -/
theorem c5_amended_theorem_witness :
    styleText (some defaultColor) none false
        (styleText (some defaultColor) none false (str "Hi"))
        = (if false then an8 else [])
          ++ colorApp (some defaultColor)
              (sizeApp none (styleText (some defaultColor) none false (str "Hi"))) ∧
    styleText (some defaultColor) none false
        (styleText (some defaultColor) none false (str "Hi"))
        ≠ styleText (some defaultColor) none false (str "Hi") :=
  c5_amended_theorem defaultColor (by decide) none false (str "Hi")

/-- C6, code bug.  For the encoding `utf-16-be` the code returns
`codecs.BOM_UTF32_BE` (`main.py` line 91), so the four bytes
`00 00 FE FF` are prepended instead of the standard two-byte UTF-16
big-endian mark `FE FF`. -/
theorem c6_code_bug_theorem :
    insert_bom [49] (str "utf-16-be") = .ok ([0, 0, 254, 255] ++ [49]) ∧
    ([0, 0, 254, 255] : List Nat) ≠ [254, 255] :=
  ⟨by rfl, by decide⟩

/-- C7, confirmed.  When no source holds any indexed cue (no sources at all,
or only sources whose files produced no valid cue), `merge` builds no lines,
and reading `self.lines[-1]` fails before the output file is opened: the call
aborts and nothing is written. -/
theorem c7_theorem (enc : Str → List Nat) (m : Merger)
    (h : ∀ sub ∈ m.subtitles, sub.dialogs = []) : merge enc m = .error () := by
  unfold merge
  dsimp only
  rw [mergeLoop_empty enc m.output_encoding (dedupSort m.timestamps) m.subtitles 1 [] h]
  rfl

/-- C7, witness: the freshly constructed session. -/
theorem c7_theorem_witness : merge utf8 initMerger = .error () :=
  c7_theorem utf8 initMerger (by decide)

/-- C8, counterexample.  On a session where `merge` succeeds, the Python call
returns `None` (the function body has no `return` statement), not the output
path: the path is only printed. -/
theorem c8_counterexample :
    (merge utf8 sessionA).toOption.map (fun o => o.ret) = some none ∧
    some (none : Option Str) ≠ some (some (get_output_path sessionA)) :=
  ⟨by rfl, by decide⟩

/-- C8, amended.  A successful `merge` writes the file at
`get_output_path` (the configured directory joined with the configured name)
but returns `None`; the path is reported only through `print`. -/
theorem c8_amended_theorem (enc : Str → List Nat) (m : Merger)
    (h : (merge enc m).toOption.isSome = true) :
    (merge enc m).toOption.map (fun o => (o.path, o.ret))
      = some (get_output_path m, none) := by
  cases hm : merge enc m with
  | error e => rw [hm] at h; exact absurd h (by simp [Except.toOption])
  | ok out =>
    obtain ⟨hp, hr⟩ := merge_ok_shape enc m out hm
    show some (out.path, out.ret) = some (get_output_path m, none)
    rw [hp, hr]

/-- C8, witness at a concrete succeeding session. -/
theorem c8_amended_theorem_witness :
    (merge utf8 sessionA).toOption.map (fun o => (o.path, o.ret))
      = some (get_output_path sessionA, none) :=
  c8_amended_theorem utf8 sessionA (by rfl)

/-- C9, code bug.  One source containing two cues at the same start-time: the
combination code (`main.py` lines 174-180) recovers the previous entry's text
with `prev.split('\n', 2)[2].strip()`, which is everything after the
previous entry's second line — for a one-line previous cue that is the empty
string, so the stored entry becomes timecode line, a blank line, and the
later cue's text: the earlier cue's body (`Hi`, wrapped) is lost instead of
being kept above the later one, contradicting the `# Add to existing dialog`
intent. -/
theorem c9_code_bug_theorem :
    (addDefault initMerger (str "a.srt")
        (str "1\n0:0:5,0 --> 0:0:6,0\nHi\n\n2\n0:0:5,0 --> 0:0:6,0\nSalut\n")
        (str "utf-8")).toOption.map
        (fun m => (m.subtitles.map (fun sub => sub.dialogs), m.timestamps))
      = some ([[(5000000,
            str "0:0:5,0 --> 0:0:6,0\n\n<font color=\"#FFFFFF\">Salut</font>\n")]],
          [5000000, 5000000]) := by rfl

/-- C10, confirmed.  `add` called without a color argument defaults to
`COLORS['WHITE']`; since `'#FFFFFF'` is truthy, every cue entry the new
source stores contains the white font wrap `<font color="#FFFFFF">`: the
default gives no way to store unstyled text. -/
theorem c10_theorem (m : Merger) (addr dataContents codec : Str) (m' : Merger)
    (h : addDefault m addr dataContents codec = .ok m') :
    ∀ sub ∈ m'.subtitles.drop m.subtitles.length, ∀ kv ∈ sub.dialogs,
      containsSub wrapToken kv.2 = true := by
  unfold addDefault add at h
  dsimp only at h
  cases hs : splitDialogs (some defaultColor) none false ([], m.timestamps)
      (splitBlocks dataContents) with
  | error e => rw [hs] at h; exact Except.noConfusion h
  | ok st =>
    rw [hs] at h
    obtain ⟨dmap, ts⟩ := st
    rw [Except.ok.injEq] at h
    subst h
    intro sub hsub kv hkv
    rw [List.drop_left] at hsub
    rw [List.mem_singleton] at hsub
    subst hsub
    exact splitDialogs_inv (splitBlocks dataContents) ([], m.timestamps) (dmap, ts) hs
      (fun kv hk => absurd hk (List.not_mem_nil kv)) kv hkv

/-- C10, witness: adding a one-cue file with the default arguments stores an
entry containing the white font wrap. -/
theorem c10_theorem_witness :
    containsSub wrapToken
      (str "0:0:5,0 --> 0:0:6,0\n<font color=\"#FFFFFF\">Hi</font>\n") = true :=
  c10_theorem initMerger (str "a.srt") (str "1\n0:0:5,0 --> 0:0:6,0\nHi") (str "utf-8")
    sessionAdded (by rfl)
    { address := str "a.srt", codec := str "utf-8", color := some defaultColor, size := none,
      data := str "1\n0:0:5,0 --> 0:0:6,0\nHi",
      raw_dialogs := [str "1\n0:0:5,0 --> 0:0:6,0\nHi"],
      dialogs := [(5000000,
        str "0:0:5,0 --> 0:0:6,0\n<font color=\"#FFFFFF\">Hi</font>\n")] }
    (by decide)
    (5000000, str "0:0:5,0 --> 0:0:6,0\n<font color=\"#FFFFFF\">Hi</font>\n")
    (by decide)
